import Mathlib

/-!
# Verification of the hybrid retrieval engine (`src/search.py`)

This file gives a shallow embedding of the search functions of
`src/search.py` and proves properties of the Reciprocal Rank Fusion
(RRF) pipeline, the temporal filter, the time-window validation and the
auxiliary lookups.

Modelling conventions:

* A database row of the `documents` table is a `Document`.  The physical
  order in which the storage engine presents rows is modelled by the
  order of the `List Document` passed to each search function; SQL
  `ORDER BY` is modelled by a stable insertion sort over that list, so
  rows with equal sort keys keep the engine order.  This makes the
  engine-dependent tie order an explicit input of the model.
* The external operators evaluated inside the SQL queries —
  `embedding <=> query` (pgvector cosine distance for the fixed query
  embedding), `search_vector @@ websearch_to_tsquery(...)` and
  `ts_rank(...)` — belong to the storage collaborator, not to the
  repository code.  They are passed as oracle parameters
  `dist : Document → ℚ`, `tmatch : Document → Bool` and
  `trank : Document → ℚ`.
* SQL numeric arithmetic is idealised as exact rational arithmetic `ℚ`.
* Timestamps are integers (seconds); `NOW()` is the parameter `now`.
-/

/-- A row of the `documents` table (column list as selected by the
queries in `src/search.py`).  `embedding` is the stored vector;
`published_date` and `created_at` are timestamps in seconds. -/
structure Document where
  id : String
  title : String
  body : String
  category : String
  version : String
  created_at : Int
  published_date : Int
  is_deprecated : Bool
  deprecation_note : Option String
  tags : List String
  trap_set : Option String
  trap_type : Option String
  embedding : List ℚ
deriving DecidableEq

/-- A document value with all metadata trivial, used to build concrete
test rows; only the fields relevant to a test are overridden. -/
def mkDoc (i : String) : Document :=
  { id := i, title := "", body := "", category := "", version := ""
    created_at := 0, published_date := 0, is_deprecated := false
    deprecation_note := none, tags := [], trap_set := none
    trap_type := none, embedding := [] }

/-- The error taxonomy of the search layer: `search_vector` fails on a
query-vector length mismatch, `search_hybrid_temporal` raises
`ValueError` on a malformed `time_window` string. -/
inductive SearchError where
  | invalidVectorDimension : SearchError
  | invalidTimeWindow : SearchError
deriving DecidableEq

/-- External effects performed by a search call: opening a database
connection and executing the SQL query. -/
inductive DBEvent where
  | connect : DBEvent
  | execQuery : DBEvent
deriving DecidableEq

/-- Ordering used by the final `ORDER BY score DESC`: row `a` precedes
row `b` when `a`'s score is at least `b`'s. -/
def scoreGe (a b : Document × ℚ) : Prop := b.2 ≤ a.2

instance : DecidableRel scoreGe :=
  fun a b => inferInstanceAs (Decidable (b.2 ≤ a.2))

instance : IsTotal (Document × ℚ) scoreGe :=
  ⟨fun a b => le_total b.2 a.2⟩

instance : IsTrans (Document × ℚ) scoreGe :=
  ⟨fun _ _ _ h1 h2 => le_trans h2 h1⟩

/-- Stable sort of rows ascending by the key `k` (SQL
`ORDER BY k`): ties keep the storage engine's row order. -/
def sortByKeyAsc (k : Document → ℚ) (l : List Document) : List Document :=
  @List.insertionSort Document (fun a b => k a ≤ k b)
    (fun a b => inferInstanceAs (Decidable (k a ≤ k b))) l

/-- Stable sort of rows descending by the key `k` (SQL
`ORDER BY k DESC`): ties keep the storage engine's row order. -/
def sortByKeyDesc (k : Document → ℚ) (l : List Document) : List Document :=
  @List.insertionSort Document (fun a b => k b ≤ k a)
    (fun a b => inferInstanceAs (Decidable (k b ≤ k a))) l

/-- The candidate-list cap: both CTEs of the hybrid queries end in
`LIMIT 20`. -/
def candidateCap : Nat := 20

/-- `ROW_NUMBER()` starting from `n`: pairs each row with its 1-based
rank when called with `n = 1`. -/
def withRanksFrom (n : Nat) : List Document → List (Document × Nat)
  | [] => []
  | d :: ds => (d, n) :: withRanksFrom (n + 1) ds

/-- Pairs each row of a candidate list with its 1-based rank, as
`ROW_NUMBER() OVER (ORDER BY ...)` does on the ordered CTE output. -/
def withRanks (l : List Document) : List (Document × Nat) :=
  withRanksFrom 1 l

/-- 1-based rank of the first row carrying `i` in a candidate list
(`none` when no row does). -/
def rankIn : List Document → String → Option Nat
  | [], _ => none
  | d :: ds, i => if d.id = i then some 1 else (rankIn ds i).map (· + 1)

/-- Rank of the first ranked row carrying `i` — the join condition
`v.id = t.id` looks the id up on the opposite side. -/
def findRank : List (Document × Nat) → String → Option Nat
  | [], _ => none
  | p :: ps, i => if p.1.id = i then some p.2 else findRank ps i

/-- One reciprocal-rank term: `COALESCE(1.0 / (60 + rank), 0.0)` —
`1 / (60 + rank)` for a present side, `0` for an absent one. -/
def rrfTerm : Option Nat → ℚ
  | some r => 1 / (60 + (r : ℚ))
  | none => 0

/-- The fused score of one combined row:
`COALESCE(1.0/(60+v.rank),0.0) * vector_weight +
 COALESCE(1.0/(60+t.rank),0.0) * text_weight`. -/
def rowScore (wv wt : ℚ) (rv rt : Option Nat) : ℚ :=
  rrfTerm rv * wv + rrfTerm rt * wt

/-- The `combined` CTE: `FULL OUTER JOIN` of the two ranked candidate
lists on `id`.  Every vector row appears (joined with its text rank when
the id also occurs on the text side), followed by the text rows whose id
has no vector match; metadata is taken from the side that supplied the
row (`COALESCE(v.x, t.x)`). -/
def fuseRows (v t : List (Document × Nat)) (wv wt : ℚ) : List (Document × ℚ) :=
  v.map (fun p => (p.1, rowScore wv wt (some p.2) (findRank t p.1.id))) ++
    (t.filter (fun p => findRank v p.1.id = none)).map
      (fun p => (p.1, rowScore wv wt none (some p.2)))

/-- RRF fusion of two candidate lists: rank each list, join, score and
sort by fused score descending (`SELECT * FROM combined ORDER BY score
DESC`), before the final `LIMIT`. -/
def rrfFusion (v t : List Document) (wv wt : ℚ) : List (Document × ℚ) :=
  List.insertionSort scoreGe (fuseRows (withRanks v) (withRanks t) wv wt)

/-- The fused score of a document id in terms of its ranks in the two
candidate lists — the specification formula
`vectorWeight * (1/(60+rankInVector)) + lexicalWeight * (1/(60+rankInLexical))`
with an absent side contributing `0`. -/
def fusedScoreOf (v t : List Document) (wv wt : ℚ) (d : Document) : ℚ :=
  rowScore wv wt (rankIn v d.id) (rankIn t d.id)

/-- The `vector_search` CTE: filter the table by the temporal predicate
`tf` (trivial in the non-temporal query), order ascending by distance to
the query embedding, keep the top `candidateCap` rows. -/
def vectorCandidates (dist : Document → ℚ) (tf : Document → Bool)
    (table : List Document) : List Document :=
  (sortByKeyAsc dist (table.filter tf)).take candidateCap

/-- The `text_search` CTE: keep the rows matching the lexical query and
the temporal predicate, order descending by `ts_rank`, keep the top
`candidateCap` rows. -/
def textCandidates (trank : Document → ℚ) (tmatch : Document → Bool)
    (tf : Document → Bool) (table : List Document) : List Document :=
  (sortByKeyDesc trank (table.filter (fun d => tf d && tmatch d))).take candidateCap

/-- `search_hybrid`: compute the two capped candidate lists, fuse them
with RRF, truncate to `limit`. -/
def search_hybrid (dist : Document → ℚ) (tmatch : Document → Bool)
    (trank : Document → ℚ) (table : List Document)
    (wv wt : ℚ) (limit : Nat) : List (Document × ℚ) :=
  (rrfFusion (vectorCandidates dist (fun _ => true) table)
    (textCandidates trank tmatch (fun _ => true) table) wv wt).take limit

/-- The unit alternation of the validation regex in
`search_hybrid_temporal`:
`(day|days|month|months|year|years|week|weeks|hour|hours)`. -/
def timeUnits : List String :=
  ["day", "days", "month", "months", "year", "years",
   "week", "weeks", "hour", "hours"]

/-- Whether a unit token is accepted by the regex: one of the
alternatives of `timeUnits`, optionally followed by one extra `s`
(the trailing `s?` of the pattern). -/
def unitOk (u : String) : Bool :=
  timeUnits.any (fun b => u = b || u = b ++ "s")

/-- Numeric value of a digit run, most significant digit first. -/
def digitsToNat (cs : List Char) : Nat :=
  cs.foldl (fun a c => a * 10 + (c.toNat - 48)) 0

/-- `str.strip()`: removes leading and trailing whitespace. -/
def stripChars (cs : List Char) : List Char :=
  ((cs.dropWhile Char.isWhitespace).reverse.dropWhile Char.isWhitespace).reverse

/-- Splits `time_window.strip()` as the regex
`^\d+\s+<unit>$` does: a non-empty digit run, a non-empty whitespace
run, and the remaining unit token.  Returns `none` when the digit or
whitespace run is empty. -/
def parseWindow (tw : String) : Option (Nat × String) :=
  let cs := stripChars tw.toList
  let ds := cs.takeWhile Char.isDigit
  let rest := cs.dropWhile Char.isDigit
  let sp := rest.takeWhile Char.isWhitespace
  let unit := rest.dropWhile Char.isWhitespace
  if ds.isEmpty || sp.isEmpty then none
  else some (digitsToNat ds, String.mk unit)

/-- The validation performed at the top of `search_hybrid_temporal`:
`re.match(r'^\d+\s+(day|days|month|months|year|years|week|weeks|hour|hours)s?$',
time_window.strip())`. -/
def validTimeWindow (tw : String) : Bool :=
  match parseWindow tw with
  | some (_, u) => unitOk u
  | none => false

/-- Duration in seconds of one unit token as interpreted by the
`INTERVAL` literal.  Calendar months and years are idealised as 30 and
365 days; only the shape `now - duration ≤ published_date` of the
filter matters to the properties proved below, not the exact length of
a month. -/
def unitSeconds (u : String) : Int :=
  if u = "hour" || u = "hours" || u = "hourss" then 3600
  else if u = "day" || u = "days" || u = "dayss" then 86400
  else if u = "week" || u = "weeks" || u = "weekss" then 604800
  else if u = "month" || u = "months" || u = "monthss" then 2592000
  else if u = "year" || u = "years" || u = "yearss" then 31536000
  else 0

/-- Duration in seconds denoted by a window string: count times unit. -/
def windowDuration (tw : String) : Int :=
  match parseWindow tw with
  | some (n, u) => (n : Int) * unitSeconds u
  | none => 0

/-- The temporal predicate added to both CTEs of the temporal query:
`published_date >= NOW() - INTERVAL '<window>'`. -/
def tfWindow (now dur : Int) (d : Document) : Bool :=
  now - dur ≤ d.published_date

/-- `search_hybrid_temporal`: validate the window string (raising
`ValueError` when it fails the regex), then run the hybrid pipeline
with the temporal predicate applied inside both CTEs, before ranking. -/
def search_hybrid_temporal (dist : Document → ℚ) (tmatch : Document → Bool)
    (trank : Document → ℚ) (tw : String) (now : Int) (table : List Document)
    (wv wt : ℚ) (limit : Nat) : Except SearchError (List (Document × ℚ)) :=
  if validTimeWindow tw then
    Except.ok ((rrfFusion
      (vectorCandidates dist (tfWindow now (windowDuration tw)) table)
      (textCandidates trank tmatch (tfWindow now (windowDuration tw)) table)
      wv wt).take limit)
  else Except.error SearchError.invalidTimeWindow

/-- `search_hybrid_temporal` together with the external effects it
performs: the validation sits before `psycopg.connect`, so a failed
validation produces no event, while a passing one opens the connection
and executes the query. -/
def search_hybrid_temporal_traced (dist : Document → ℚ)
    (tmatch : Document → Bool) (trank : Document → ℚ) (tw : String)
    (now : Int) (table : List Document) (wv wt : ℚ) (limit : Nat) :
    List DBEvent × Except SearchError (List (Document × ℚ)) :=
  if validTimeWindow tw then
    ([DBEvent.connect, DBEvent.execQuery],
      search_hybrid_temporal dist tmatch trank tw now table wv wt limit)
  else ([], Except.error SearchError.invalidTimeWindow)

/-- The grammar stated by the specification for `time_window`:
a non-negative integer count, whitespace, then a unit from
`{hour, day, week, month, year}` in singular or plural form — with no
extra trailing `s`. -/
def specWindowGrammar (tw : String) : Bool :=
  match parseWindow tw with
  | some (_, u) => timeUnits.contains u
  | none => false

/-- The unit tokens actually accepted by the code's regex: each unit in
singular or plural form, optionally followed by one extra `s`. -/
def allowedUnitsLoose : List String :=
  ["day", "days", "dayss", "month", "months", "monthss",
   "year", "years", "yearss", "week", "weeks", "weekss",
   "hour", "hours", "hourss"]

/-- The amended grammar: count, whitespace, then a token of
`allowedUnitsLoose`. -/
def specWindowGrammarLoose (tw : String) : Bool :=
  match parseWindow tw with
  | some (_, u) => allowedUnitsLoose.contains u
  | none => false

/-- `search_vector`: order the table by distance to the query embedding,
truncate to `limit`, and report `1 - distance` as the score.
Modelled from the spec: the dimension check itself is performed by the
external vector engine's `<=>` operator, which fails the whole query
when the query vector's length differs from a stored embedding's
length (spec sections 4.1 and 7); `src/search.py` contains no explicit
check, so the query errors exactly when some row's distance evaluation
involves mismatched lengths. -/
def search_vector (dist : Document → ℚ) (q : List ℚ)
    (table : List Document) (limit : Nat) :
    Except SearchError (List (Document × ℚ)) :=
  if table.all (fun d => d.embedding.length == q.length) then
    Except.ok (((sortByKeyAsc dist table).take limit).map
      (fun d => (d, 1 - dist d)))
  else Except.error SearchError.invalidVectorDimension

/-- `get_document_by_id`: `SELECT ... WHERE id = %s LIMIT 1` followed by
`fetchone()` — the first row with the given id in engine order, or
`None` when no row matches. -/
def get_document_by_id (table : List Document) (docId : String) :
    Option Document :=
  (table.filter (fun d => d.id = docId)).head?

/-- A stored row with the full 768-dimensional embedding. -/
def doc768 : Document := { mkDoc "E" with embedding := List.replicate 768 0 }

theorem withRanksFrom_map_fst (n : Nat) (l : List Document) :
    (withRanksFrom n l).map Prod.fst = l := by
  induction l generalizing n with
  | nil => rfl
  | cons d ds ih => simp [withRanksFrom, ih]

theorem mem_withRanksFrom {p : Document × Nat} {n : Nat} {l : List Document}
    (h : p ∈ withRanksFrom n l) : p.1 ∈ l := by
  induction l generalizing n with
  | nil => cases h
  | cons d ds ih =>
    rw [withRanksFrom] at h
    rcases List.mem_cons.mp h with he | hm
    · subst he; exact List.mem_cons_self _ _
    · exact List.mem_cons_of_mem _ (ih hm)

theorem rankIn_eq_none {l : List Document} {i : String} :
    rankIn l i = none ↔ ∀ d ∈ l, d.id ≠ i := by
  induction l with
  | nil => simp [rankIn]
  | cons d ds ih =>
    by_cases h : d.id = i
    · simp [rankIn, h]
    · simp [rankIn, h, Option.map_eq_none', ih]

theorem findRank_withRanksFrom (l : List Document) (n : Nat) (i : String) :
    findRank (withRanksFrom n l) i = (rankIn l i).map (fun r => r + n - 1) := by
  induction l generalizing n with
  | nil => rfl
  | cons d ds ih =>
    by_cases h : d.id = i
    · simp [withRanksFrom, findRank, rankIn, h]
    · rw [withRanksFrom, findRank, if_neg (by simpa using h), ih, rankIn, if_neg h,
        Option.map_map]
      cases rankIn ds i with
      | none => rfl
      | some r => simp [Function.comp]

theorem findRank_withRanks (l : List Document) (i : String) :
    findRank (withRanks l) i = rankIn l i := by
  rw [withRanks, findRank_withRanksFrom]
  cases rankIn l i with
  | none => rfl
  | some r => simp

theorem rankIn_withRanksFrom {l : List Document}
    (hn : (l.map Document.id).Nodup) {d : Document} {r n : Nat}
    (h : (d, r) ∈ withRanksFrom n l) :
    rankIn l d.id = some (r + 1 - n) ∧ n ≤ r := by
  induction l generalizing n with
  | nil => cases h
  | cons x xs ih =>
    rw [withRanksFrom] at h
    rw [List.map_cons] at hn
    have hn2 := List.nodup_cons.mp hn
    rcases List.mem_cons.mp h with he | hm
    · have hd : d = x := congrArg Prod.fst he
      have hr : r = n := congrArg Prod.snd he
      subst hd; subst hr
      simp [rankIn]
    · have hdm : d ∈ xs := mem_withRanksFrom hm
      have hne : ¬ x.id = d.id := by
        intro he
        exact hn2.1 (he ▸ List.mem_map_of_mem Document.id hdm)
      obtain ⟨hval, hle⟩ := ih hn2.2 hm
      have harith : r + 1 - (n + 1) + 1 = r + 1 - n := by omega
      rw [rankIn, if_neg hne, hval]
      exact ⟨by simp; omega, by omega⟩

theorem rankIn_withRanks {l : List Document}
    (hn : (l.map Document.id).Nodup) {d : Document} {r : Nat}
    (h : (d, r) ∈ withRanks l) : rankIn l d.id = some r := by
  obtain ⟨hval, hle⟩ := rankIn_withRanksFrom hn h
  rw [hval]
  simp

theorem fuseRows_score {v t : List Document}
    (hv : (v.map Document.id).Nodup) (ht : (t.map Document.id).Nodup)
    (wv wt : ℚ) {p : Document × ℚ}
    (hp : p ∈ fuseRows (withRanks v) (withRanks t) wv wt) :
    p.2 = fusedScoreOf v t wv wt p.1 := by
  rw [fuseRows] at hp
  rcases List.mem_append.mp hp with h | h
  · obtain ⟨q, hq, he⟩ := List.mem_map.mp h
    obtain ⟨d, r⟩ := q
    rw [← he]
    simp only [fusedScoreOf]
    rw [findRank_withRanks, rankIn_withRanks hv hq]
  · obtain ⟨q, hq, he⟩ := List.mem_map.mp h
    have hqf := List.mem_filter.mp hq
    obtain ⟨d, r⟩ := q
    have h1 : rankIn t d.id = some r := rankIn_withRanks ht hqf.1
    have h2 : rankIn v d.id = none := by
      have h3 := hqf.2
      rw [findRank_withRanks] at h3
      simpa using h3
    rw [← he]
    simp only [fusedScoreOf]
    rw [h1, h2]

theorem mem_fuseRows_doc {v t : List (Document × Nat)} {wv wt : ℚ}
    {p : Document × ℚ} (h : p ∈ fuseRows v t wv wt) :
    p.1 ∈ v.map Prod.fst ∨ p.1 ∈ t.map Prod.fst := by
  rw [fuseRows] at h
  rcases List.mem_append.mp h with h | h
  · obtain ⟨q, hq, he⟩ := List.mem_map.mp h
    exact Or.inl (List.mem_map.mpr ⟨q, hq, by rw [← he]⟩)
  · obtain ⟨q, hq, he⟩ := List.mem_map.mp h
    exact Or.inr (List.mem_map.mpr ⟨q, (List.mem_filter.mp hq).1, by rw [← he]⟩)

theorem rrfFusion_sorted (v t : List Document) (wv wt : ℚ) :
    List.Sorted scoreGe (rrfFusion v t wv wt) :=
  List.sorted_insertionSort scoreGe _

theorem rrfFusion_score {v t : List Document}
    (hv : (v.map Document.id).Nodup) (ht : (t.map Document.id).Nodup)
    (wv wt : ℚ) {p : Document × ℚ} (hp : p ∈ rrfFusion v t wv wt) :
    p.2 = fusedScoreOf v t wv wt p.1 :=
  fuseRows_score hv ht wv wt ((List.mem_insertionSort scoreGe).mp hp)

theorem mem_rrfFusion_doc {v t : List Document} {wv wt : ℚ}
    {p : Document × ℚ} (h : p ∈ rrfFusion v t wv wt) :
    p.1 ∈ v ∨ p.1 ∈ t := by
  rw [rrfFusion] at h
  have h2 := mem_fuseRows_doc ((List.mem_insertionSort scoreGe).mp h)
  rwa [withRanks, withRanks, withRanksFrom_map_fst, withRanksFrom_map_fst] at h2

theorem mem_vectorCandidates {dist : Document → ℚ} {tf : Document → Bool}
    {table : List Document} {d : Document}
    (h : d ∈ vectorCandidates dist tf table) : d ∈ table ∧ tf d = true := by
  rw [vectorCandidates] at h
  have h1 : d ∈ sortByKeyAsc dist (table.filter tf) :=
    (List.take_sublist _ _).subset h
  rw [sortByKeyAsc] at h1
  have h2 : d ∈ table.filter tf := (List.mem_insertionSort _).mp h1
  exact List.mem_filter.mp h2

theorem mem_textCandidates {trank : Document → ℚ} {tmatch tf : Document → Bool}
    {table : List Document} {d : Document}
    (h : d ∈ textCandidates trank tmatch tf table) :
    d ∈ table ∧ tf d = true ∧ tmatch d = true := by
  rw [textCandidates] at h
  have h1 : d ∈ sortByKeyDesc trank (table.filter (fun d => tf d && tmatch d)) :=
    (List.take_sublist _ _).subset h
  rw [sortByKeyDesc] at h1
  have h2 := List.mem_filter.mp ((List.mem_insertionSort _).mp h1)
  refine ⟨h2.1, ?_, ?_⟩
  · exact (Bool.and_eq_true_iff.mp h2.2).1
  · exact (Bool.and_eq_true_iff.mp h2.2).2

theorem nodup_ids_vectorCandidates (dist : Document → ℚ) (tf : Document → Bool)
    {table : List Document} (h : (table.map Document.id).Nodup) :
    ((vectorCandidates dist tf table).map Document.id).Nodup := by
  have h1 : ((table.filter tf).map Document.id).Nodup :=
    List.Nodup.sublist ((List.filter_sublist table).map Document.id) h
  have h2 : ((sortByKeyAsc dist (table.filter tf)).map Document.id).Nodup := by
    rw [sortByKeyAsc]
    exact (((List.perm_insertionSort _ _).map Document.id).symm).nodup h1
  rw [vectorCandidates, List.map_take]
  exact List.Nodup.sublist (List.take_sublist _ _) h2

theorem nodup_ids_textCandidates (trank : Document → ℚ)
    (tmatch tf : Document → Bool) {table : List Document}
    (h : (table.map Document.id).Nodup) :
    ((textCandidates trank tmatch tf table).map Document.id).Nodup := by
  have h1 : ((table.filter (fun d => tf d && tmatch d)).map Document.id).Nodup :=
    List.Nodup.sublist ((List.filter_sublist table).map Document.id) h
  have h2 : ((sortByKeyDesc trank
      (table.filter (fun d => tf d && tmatch d))).map Document.id).Nodup := by
    rw [sortByKeyDesc]
    exact (((List.perm_insertionSort _ _).map Document.id).symm).nodup h1
  rw [textCandidates, List.map_take]
  exact List.Nodup.sublist (List.take_sublist _ _) h2

theorem countP_withRanksFrom (f : Document → Bool) (n : Nat) (l : List Document) :
    List.countP (fun p => f p.1) (withRanksFrom n l) = List.countP f l := by
  induction l generalizing n with
  | nil => rfl
  | cons d ds ih => simp [withRanksFrom, List.countP_cons, ih]

/-- C1 (amended): for every pair of candidate rank lists with distinct
ids and any weights, every fused row carries the score
`vectorWeight * (1/(60+rankInVector)) + lexicalWeight * (1/(60+rankInLexical))`
with an absent side contributing 0, and the fused list is sorted by this
score descending.  On the example (vector `[D1, D2, D3]`, lexical
`[D2, D4]`, both weights 0.5) the fused scores are D1 ↦ 0.5/61,
D2 ↦ 0.5/62 + 0.5/61 = 123/7564, D3 ↦ 0.5/63, D4 ↦ 0.5/62, and the
returned order is D2, D1, D4, D3.  (The claim stated D2's score as
0.5/61 + 0.5/61; D2 is at rank 2, not 1, of the vector list.) -/
theorem C1_fusion_formula_and_example (v t : List Document) (wv wt : ℚ)
    (hv : (v.map Document.id).Nodup) (ht : (t.map Document.id).Nodup) :
    ((∀ p ∈ rrfFusion v t wv wt, p.2 = fusedScoreOf v t wv wt p.1) ∧
      List.Sorted scoreGe (rrfFusion v t wv wt)) ∧
      (rrfFusion [mkDoc "D1", mkDoc "D2", mkDoc "D3"] [mkDoc "D2", mkDoc "D4"]
          (1/2) (1/2)).map (fun p => (p.1.id, p.2)) =
        [("D2", 123/7564), ("D1", 1/122), ("D4", 1/124), ("D3", 1/126)] := by
  refine ⟨⟨fun p hp => rrfFusion_score hv ht wv wt hp, rrfFusion_sorted v t wv wt⟩, ?_⟩
  norm_num +decide [rrfFusion, fuseRows, withRanks, withRanksFrom, findRank,
    rowScore, rrfTerm, List.insertionSort, List.orderedInsert, scoreGe, mkDoc]

/-- C1 witness: the theorem applied to the example lists. -/
theorem C1_fusion_formula_and_example_witness :
    (rrfFusion [mkDoc "D1", mkDoc "D2", mkDoc "D3"] [mkDoc "D2", mkDoc "D4"]
        (1/2) (1/2)).map (fun p => (p.1.id, p.2)) =
      [("D2", 123/7564), ("D1", 1/122), ("D4", 1/124), ("D3", 1/126)] :=
  (C1_fusion_formula_and_example [mkDoc "D1", mkDoc "D2", mkDoc "D3"]
    [mkDoc "D2", mkDoc "D4"] (1/2) (1/2) (by decide) (by decide)).2

/-- C1 counterexample: on the example lists the code assigns D2 the
fused score 0.5/62 + 0.5/61 = 123/7564 (vector rank 2, lexical rank 1),
which differs from the claimed value 0.5/61 + 0.5/61. -/
theorem C1_example_d2_score_cx :
    fusedScoreOf [mkDoc "D1", mkDoc "D2", mkDoc "D3"] [mkDoc "D2", mkDoc "D4"]
        (1/2) (1/2) (mkDoc "D2") = 123/7564 ∧
      (123/7564 : ℚ) ≠ 1/2 * (1/61) + 1/2 * (1/61) := by
  constructor
  · norm_num +decide [fusedScoreOf, rankIn, rowScore, rrfTerm, mkDoc]
  · norm_num

/-- C5 (amended): when the vector weight is positive, a document ranked
strictly better in the vector list than another, both absent from the
lexical list, receives a strictly larger fused score.  (The claim as
stated, with no constraint on the weights, fails at `vectorWeight = 0`.) -/
theorem C5_vector_rank_monotone (v t : List Document) (wv wt : ℚ)
    (A B : Document) (ra rb : Nat) (hwv : 0 < wv)
    (hta : rankIn t A.id = none) (htb : rankIn t B.id = none)
    (hva : rankIn v A.id = some ra) (hvb : rankIn v B.id = some rb)
    (hr : ra < rb) :
    fusedScoreOf v t wv wt A > fusedScoreOf v t wv wt B := by
  rw [fusedScoreOf, fusedScoreOf, hta, htb, hva, hvb]
  rw [rowScore, rowScore]
  simp only [rrfTerm, zero_mul, add_zero]
  have hcast : (60 + (ra : ℚ)) < 60 + (rb : ℚ) := by
    have : (ra : ℚ) < rb := by exact_mod_cast hr
    linarith
  have hpos : (0 : ℚ) < 60 + (ra : ℚ) := by positivity
  exact mul_lt_mul_of_pos_right (one_div_lt_one_div_of_lt hpos hcast) hwv

/-- C5 witness: in vector list `[A, B]` with empty lexical list and
weights 0.5/0.5, A (rank 1) outscores B (rank 2). -/
theorem C5_vector_rank_monotone_witness :
    fusedScoreOf [mkDoc "A", mkDoc "B"] [] (1/2) (1/2) (mkDoc "A") >
      fusedScoreOf [mkDoc "A", mkDoc "B"] [] (1/2) (1/2) (mkDoc "B") :=
  C5_vector_rank_monotone [mkDoc "A", mkDoc "B"] [] (1/2) (1/2)
    (mkDoc "A") (mkDoc "B") 1 2 (by norm_num) (by decide) (by decide)
    (by decide) (by decide) (by decide)

/-- C5 counterexample: with `vectorWeight = 0` two documents at vector
ranks 1 and 2, both absent from the lexical list, tie at fused score 0,
so the claimed strict inequality fails. -/
theorem C5_zero_weight_cx :
    rankIn [mkDoc "A", mkDoc "B"] "A" = some 1 ∧
      rankIn [mkDoc "A", mkDoc "B"] "B" = some 2 ∧
      rankIn ([] : List Document) "A" = none ∧
      rankIn ([] : List Document) "B" = none ∧
      ¬ (fusedScoreOf [mkDoc "A", mkDoc "B"] [] 0 (1/2) (mkDoc "A") >
          fusedScoreOf [mkDoc "A", mkDoc "B"] [] 0 (1/2) (mkDoc "B")) := by
  refine ⟨by decide, by decide, by decide, by decide, ?_⟩
  norm_num +decide [fusedScoreOf, rankIn, rowScore, rrfTerm, mkDoc]

/-- C6: when both candidate lists have distinct ids, every id appearing
in either list occurs exactly once in the pre-truncation fused ranking:
the full outer join neither drops a candidate nor duplicates a document
present on both sides. -/
theorem C6_union_exactly_once (v t : List Document) (wv wt : ℚ) (i : String)
    (hv : (v.map Document.id).Nodup) (ht : (t.map Document.id).Nodup)
    (hi : i ∈ v.map Document.id ∨ i ∈ t.map Document.id) :
    (rrfFusion v t wv wt).countP (fun p => p.1.id == i) = 1 := by
  rw [rrfFusion, List.Perm.countP_eq _ (List.perm_insertionSort _ _)]
  rw [fuseRows, List.countP_append, List.countP_map, List.countP_map]
  have hcv : List.countP ((fun p => p.1.id == i) ∘
      fun p => (p.1, rowScore wv wt (some p.2) (findRank (withRanks t) p.1.id)))
      (withRanks v) = List.countP (fun d => d.id == i) v := by
    rw [withRanks]
    exact countP_withRanksFrom (fun d => d.id == i) 1 v
  have hcnt_v : List.countP (fun d => d.id == i) v = List.count i (v.map Document.id) := by
    rw [List.count, List.countP_map]
    rfl
  have hcnt_t : List.countP (fun d => d.id == i) t = List.count i (t.map Document.id) := by
    rw [List.count, List.countP_map]
    rfl
  rw [hcv, List.countP_filter]
  by_cases hmv : i ∈ v.map Document.id
  · have h1 : List.countP (fun d => d.id == i) v = 1 := by
      rw [hcnt_v]; exact List.count_eq_one_of_mem hv hmv
    have hrv : ¬ rankIn v i = none := by
      rw [rankIn_eq_none]
      push_neg
      obtain ⟨d, hd, hdi⟩ := List.mem_map.mp hmv
      exact ⟨d, hd, hdi⟩
    have h2 : List.countP (fun p =>
        ((fun p => p.1.id == i) ∘ fun p => (p.1, rowScore wv wt none (some p.2))) p &&
          decide (findRank (withRanks v) p.1.id = none)) (withRanks t) = 0 := by
      rw [List.countP_eq_zero]
      intro p hp hcon
      rw [Bool.and_eq_true_iff] at hcon
      have hid : p.1.id = i := by simpa using hcon.1
      have hnone : findRank (withRanks v) p.1.id = none := by simpa using hcon.2
      rw [findRank_withRanks, hid] at hnone
      exact hrv hnone
    rw [h1, h2]
  · have h1 : List.countP (fun d => d.id == i) v = 0 := by
      rw [hcnt_v]; exact List.count_eq_zero.mpr hmv
    have hmt : i ∈ t.map Document.id := hi.resolve_left hmv
    have hrv : rankIn v i = none := by
      rw [rankIn_eq_none]
      intro d hd he
      exact hmv (he ▸ List.mem_map_of_mem Document.id hd)
    have h2 : List.countP (fun p =>
        ((fun p => p.1.id == i) ∘ fun p => (p.1, rowScore wv wt none (some p.2))) p &&
          decide (findRank (withRanks v) p.1.id = none)) (withRanks t) =
        List.countP (fun p => p.1.id == i) (withRanks t) := by
      apply List.countP_congr
      intro p hp
      constructor
      · intro hcon
        rw [Bool.and_eq_true_iff] at hcon
        simpa using hcon.1
      · intro hcon
        have hid : p.1.id = i := by simpa using hcon
        rw [Bool.and_eq_true_iff]
        refine ⟨by simpa using hcon, ?_⟩
        rw [findRank_withRanks, hid, hrv]
        exact decide_eq_true rfl
    have h3 : List.countP (fun p => p.1.id == i) (withRanks t) = 1 := by
      rw [withRanks, countP_withRanksFrom (fun d => d.id == i) 1 t, hcnt_t]
      exact List.count_eq_one_of_mem ht hmt
    rw [h1, h2, h3]

/-- C6 witness: the theorem applied at a one-document vector list. -/
theorem C6_union_exactly_once_witness :
    (rrfFusion [mkDoc "A"] [] (1/2) (1/2)).countP (fun p => p.1.id == "A") = 1 :=
  C6_union_exactly_once [mkDoc "A"] [] (1/2) (1/2) "A" (by decide) (by decide)
    (Or.inl (by decide))

/-- C4 counterexample: two physical row orders of the same two-document
collection (a permutation), identical query inputs, equal vector
distances — the two invocations return different result lists, because
`ORDER BY embedding <=> query` breaks the distance tie by engine row
order and the two documents swap candidate ranks. -/
theorem C4_tie_order_cx :
    ([mkDoc "A", mkDoc "B"] : List Document).Perm [mkDoc "B", mkDoc "A"] ∧
      search_hybrid (fun _ => 0) (fun _ => false) (fun _ => 0)
          [mkDoc "A", mkDoc "B"] (1/2) (1/2) 5 ≠
        search_hybrid (fun _ => 0) (fun _ => false) (fun _ => 0)
          [mkDoc "B", mkDoc "A"] (1/2) (1/2) 5 := by
  refine ⟨List.Perm.swap _ _ _, ?_⟩
  norm_num +decide [search_hybrid, rrfFusion, fuseRows, withRanks, withRanksFrom,
    findRank, rowScore, rrfTerm, List.insertionSort, List.orderedInsert, scoreGe,
    vectorCandidates, textCandidates, sortByKeyAsc, sortByKeyDesc, candidateCap,
    mkDoc, Document.mk.injEq]

/-- C4 (amended): for fixed inputs and a fixed storage row order the
result is a deterministic function whose entries carry the RRF fused
score of their candidate ranks and which is sorted by fused score
descending; between invocations that observe different row orders the
order of tied rows (and, through tied candidate ranks, the scores) may
differ. -/
theorem C4_deterministic_given_row_order (dist : Document → ℚ)
    (tmatch : Document → Bool) (trank : Document → ℚ)
    (table : List Document) (wv wt : ℚ) (limit : Nat)
    (hn : (table.map Document.id).Nodup) :
    (∀ p ∈ search_hybrid dist tmatch trank table wv wt limit,
        p.2 = fusedScoreOf (vectorCandidates dist (fun _ => true) table)
          (textCandidates trank tmatch (fun _ => true) table) wv wt p.1) ∧
      List.Sorted scoreGe (search_hybrid dist tmatch trank table wv wt limit) := by
  constructor
  · intro p hp
    exact rrfFusion_score (nodup_ids_vectorCandidates dist _ hn)
      (nodup_ids_textCandidates trank tmatch _ hn) wv wt
      ((List.take_sublist _ _).subset hp)
  · exact List.Pairwise.sublist (List.take_sublist _ _)
      (rrfFusion_sorted _ _ wv wt)

/-- C4 witness: the theorem applied at a concrete one-document table. -/
theorem C4_deterministic_given_row_order_witness :
    List.Sorted scoreGe (search_hybrid (fun _ => 0) (fun _ => false)
      (fun _ => 0) [mkDoc "A"] (1/2) (1/2) 5) :=
  (C4_deterministic_given_row_order (fun _ => 0) (fun _ => false) (fun _ => 0)
    [mkDoc "A"] (1/2) (1/2) 5 (by decide)).2

/-- C2 counterexample: with window `1 hour` at `now = 0`, a document
whose `published_date` is 1000 — strictly in the future, outside the
claimed closed interval `[now - W, now]` — is returned at the top of
the result: the SQL filter `published_date >= NOW() - INTERVAL ...`
imposes no upper bound. -/
theorem C2_future_doc_returned_cx :
    search_hybrid_temporal (fun _ => 0) (fun _ => false) (fun _ => 0)
        "1 hour" 0 [{ mkDoc "F" with published_date := 1000 }] (1/2) (1/2) 5 =
      Except.ok [({ mkDoc "F" with published_date := 1000 }, 1/122)] ∧
      ¬ (({ mkDoc "F" with published_date := 1000 } : Document).published_date ≤ 0) := by
  constructor
  · norm_num +decide [search_hybrid_temporal, rrfFusion, fuseRows, withRanks,
      withRanksFrom, findRank, rowScore, rrfTerm, List.insertionSort,
      List.orderedInsert, scoreGe, vectorCandidates, textCandidates,
      sortByKeyAsc, sortByKeyDesc, candidateCap, tfWindow, windowDuration,
      parseWindow, stripChars, digitsToNat, unitSeconds, mkDoc]
  · decide

/-- C2 (amended): every document returned by a successful
`search_hybrid_temporal` call has `published_date ≥ now − W` — the
lower bound of the window is enforced inside both CTEs, before ranking;
no upper bound `published_date ≤ now` is enforced. -/
theorem C2_temporal_lower_bound (dist : Document → ℚ)
    (tmatch : Document → Bool) (trank : Document → ℚ) (tw : String)
    (now : Int) (table : List Document) (wv wt : ℚ) (limit : Nat)
    (res : List (Document × ℚ))
    (h : search_hybrid_temporal dist tmatch trank tw now table wv wt limit =
      Except.ok res) :
    ∀ p ∈ res, now - windowDuration tw ≤ p.1.published_date := by
  intro p hp
  rw [search_hybrid_temporal] at h
  by_cases hw : validTimeWindow tw
  · rw [if_pos hw] at h
    have hres : res = (rrfFusion
        (vectorCandidates dist (tfWindow now (windowDuration tw)) table)
        (textCandidates trank tmatch (tfWindow now (windowDuration tw)) table)
        wv wt).take limit := by
      injection h.symm
    have hm : p ∈ rrfFusion
        (vectorCandidates dist (tfWindow now (windowDuration tw)) table)
        (textCandidates trank tmatch (tfWindow now (windowDuration tw)) table)
        wv wt := by
      rw [hres] at hp
      exact (List.take_sublist _ _).subset hp
    rcases mem_rrfFusion_doc hm with hd | hd
    · have := (mem_vectorCandidates hd).2
      rw [tfWindow] at this
      exact of_decide_eq_true this
    · have := (mem_textCandidates hd).2.1
      rw [tfWindow] at this
      exact of_decide_eq_true this
  · rw [if_neg hw] at h
    cases h

/-- C2 witness: the lower bound holds for the document returned in the
concrete run above. -/
theorem C2_temporal_lower_bound_witness :
    (0 : Int) - windowDuration "1 hour" ≤
      ({ mkDoc "F" with published_date := 1000 } : Document).published_date :=
  C2_temporal_lower_bound (fun _ => 0) (fun _ => false) (fun _ => 0)
    "1 hour" 0 [{ mkDoc "F" with published_date := 1000 }] (1/2) (1/2) 5
    [({ mkDoc "F" with published_date := 1000 }, 1/122)]
    (by norm_num +decide [search_hybrid_temporal, rrfFusion, fuseRows, withRanks,
      withRanksFrom, findRank, rowScore, rrfTerm, List.insertionSort,
      List.orderedInsert, scoreGe, vectorCandidates, textCandidates,
      sortByKeyAsc, sortByKeyDesc, candidateCap, tfWindow, windowDuration,
      parseWindow, stripChars, digitsToNat, unitSeconds, mkDoc])
    ({ mkDoc "F" with published_date := 1000 }, 1/122)
    (List.mem_singleton.mpr rfl)

theorem unitOk_mem_iff (u : String) :
    unitOk u = true ↔ u ∈ allowedUnitsLoose := by
  constructor
  · intro h
    simp only [unitOk, List.any_eq_true] at h
    obtain ⟨b, hb, h2⟩ := h
    rw [Bool.or_eq_true] at h2
    have h3 : u = b ∨ u = b ++ "s" := by
      rcases h2 with h2 | h2
      · exact Or.inl (of_decide_eq_true h2)
      · exact Or.inr (of_decide_eq_true h2)
    fin_cases hb <;> rcases h3 with rfl | rfl <;> decide
  · intro h
    fin_cases h <;> decide

theorem unitOk_eq_contains (u : String) :
    unitOk u = allowedUnitsLoose.contains u := by
  by_cases hm : u ∈ allowedUnitsLoose
  · rw [(unitOk_mem_iff u).mpr hm]
    exact (List.elem_iff.mpr hm).symm
  · cases hu : unitOk u
    · cases hc : allowedUnitsLoose.contains u
      · rfl
      · exact absurd (List.elem_iff.mp hc) hm
    · exact absurd ((unitOk_mem_iff u).mp hu) hm

/-- C3 (amended): `search_hybrid_temporal` fails with the
invalid-time-window error exactly when the window string does not match
the code's regex, and that regex accepts precisely: a non-negative
integer count, whitespace, then a unit of `{hour, day, week, month,
year}` in singular or plural form optionally followed by one extra `s`
(the alternation already lists the plurals and the pattern appends
`s?`).  (The claim's grammar — singular or plural only — is strictly
smaller: the code also accepts `dayss`, `hourss`, ….) -/
theorem C3_window_validation (dist : Document → ℚ) (tmatch : Document → Bool)
    (trank : Document → ℚ) (tw : String) (now : Int) (table : List Document)
    (wv wt : ℚ) (limit : Nat) :
    (search_hybrid_temporal dist tmatch trank tw now table wv wt limit =
        Except.error SearchError.invalidTimeWindow ↔
      validTimeWindow tw = false) ∧
      validTimeWindow tw = specWindowGrammarLoose tw := by
  constructor
  · by_cases hw : validTimeWindow tw
    · simp [search_hybrid_temporal, hw]
    · simp [search_hybrid_temporal, hw]
  · rw [validTimeWindow, specWindowGrammarLoose]
    cases hp : parseWindow tw with
    | none => rfl
    | some q =>
      obtain ⟨n, u⟩ := q
      exact unitOk_eq_contains u

/-- C3 counterexample: the window string `2 dayss` is outside the
claim's grammar (the unit is neither `day` nor `days`), yet the code's
regex accepts it and the call does not raise the invalid-time-window
error. -/
theorem C3_dayss_cx :
    specWindowGrammar "2 dayss" = false ∧
      validTimeWindow "2 dayss" = true ∧
      search_hybrid_temporal (fun _ => 0) (fun _ => false) (fun _ => 0)
          "2 dayss" 0 [] (1/2) (1/2) 5 ≠
        Except.error SearchError.invalidTimeWindow := by
  refine ⟨by decide, by decide, ?_⟩
  have h : search_hybrid_temporal (fun _ => (0:ℚ)) (fun _ => false)
      (fun _ => (0:ℚ)) "2 dayss" 0 [] (1/2) (1/2) 5 = Except.ok [] := by
    norm_num +decide [search_hybrid_temporal, rrfFusion, fuseRows, withRanks,
      withRanksFrom, findRank, rowScore, rrfTerm, List.insertionSort,
      List.orderedInsert, scoreGe, vectorCandidates, textCandidates,
      sortByKeyAsc, sortByKeyDesc, candidateCap, tfWindow, windowDuration,
      parseWindow, stripChars, digitsToNat, unitSeconds]
  rw [h]
  exact fun hc => Except.noConfusion hc

/-- C9: when the window string fails validation, the call raises the
`ValueError` before opening a database connection or executing the
query: the traced run performs no external effect and produces no
response envelope. -/
theorem C9_invalid_window_no_effects (dist : Document → ℚ)
    (tmatch : Document → Bool) (trank : Document → ℚ) (tw : String)
    (now : Int) (table : List Document) (wv wt : ℚ) (limit : Nat)
    (h : validTimeWindow tw = false) :
    search_hybrid_temporal_traced dist tmatch trank tw now table wv wt limit =
      ([], Except.error SearchError.invalidTimeWindow) := by
  simp [search_hybrid_temporal_traced, h]

/-- C9 witness: the theorem applied to the malformed window `banana`. -/
theorem C9_invalid_window_no_effects_witness :
    search_hybrid_temporal_traced (fun _ => 0) (fun _ => false) (fun _ => 0)
        "banana" 0 [] (1/2) (1/2) 5 =
      ([], Except.error SearchError.invalidTimeWindow) :=
  C9_invalid_window_no_effects (fun _ => 0) (fun _ => false) (fun _ => 0)
    "banana" 0 [] (1/2) (1/2) 5 (by decide)

/-- C7 counterexample: the candidate cap is the fixed constant 20 of the
two `LIMIT 20` CTEs; for a final limit of 25 it is not a size above the
final limit, contrary to what the claim asserts for every limit. -/
theorem C7_cap_not_above_limit_cx : ¬ (25 < candidateCap) := by decide

/-- C7 (amended): in both hybrid operations the two candidate lists are
computed first and capped at the fixed size 20 (above the default limit
of 5, though not above limits ≥ 20), the two lists are fused into one
scored list, and that list is truncated to `limit`; a document outside
both top-20 candidate lists never appears in the output. -/
theorem C7_cap_fuse_truncate (dist : Document → ℚ) (tmatch : Document → Bool)
    (trank : Document → ℚ) (table : List Document) (wv wt : ℚ)
    (limit : Nat) (tw : String) (now : Int) (res : List (Document × ℚ)) :
    (vectorCandidates dist (fun _ => true) table).length ≤ candidateCap ∧
      (textCandidates trank tmatch (fun _ => true) table).length ≤ candidateCap ∧
      (search_hybrid dist tmatch trank table wv wt limit).length ≤ limit ∧
      (∀ p ∈ search_hybrid dist tmatch trank table wv wt limit,
        p.1 ∈ vectorCandidates dist (fun _ => true) table ∨
          p.1 ∈ textCandidates trank tmatch (fun _ => true) table) ∧
      (search_hybrid_temporal dist tmatch trank tw now table wv wt limit =
          Except.ok res →
        res.length ≤ limit ∧
          ∀ p ∈ res,
            p.1 ∈ vectorCandidates dist (tfWindow now (windowDuration tw)) table ∨
              p.1 ∈ textCandidates trank tmatch
                (tfWindow now (windowDuration tw)) table) := by
  refine ⟨?_, ?_, ?_, ?_, ?_⟩
  · rw [vectorCandidates]
    exact List.length_take_le _ _
  · rw [textCandidates]
    exact List.length_take_le _ _
  · rw [search_hybrid]
    exact List.length_take_le _ _
  · intro p hp
    exact mem_rrfFusion_doc ((List.take_sublist _ _).subset hp)
  · intro h
    rw [search_hybrid_temporal] at h
    by_cases hw : validTimeWindow tw
    · rw [if_pos hw] at h
      have hres : res = (rrfFusion
          (vectorCandidates dist (tfWindow now (windowDuration tw)) table)
          (textCandidates trank tmatch (tfWindow now (windowDuration tw)) table)
          wv wt).take limit := by
        injection h.symm
      constructor
      · rw [hres]
        exact List.length_take_le _ _
      · intro p hp
        rw [hres] at hp
        exact mem_rrfFusion_doc ((List.take_sublist _ _).subset hp)
    · rw [if_neg hw] at h
      cases h

/-- C7 witness: in the concrete one-document run, the returned document
comes from the vector candidate list. -/
theorem C7_cap_fuse_truncate_witness :
    (mkDoc "A", (1/122 : ℚ)).1 ∈
        vectorCandidates (fun _ => 0) (fun _ => true) [mkDoc "A"] ∨
      (mkDoc "A", (1/122 : ℚ)).1 ∈
        textCandidates (fun _ => 0) (fun _ => false) (fun _ => true) [mkDoc "A"] :=
  (C7_cap_fuse_truncate (fun _ => 0) (fun _ => false) (fun _ => 0) [mkDoc "A"]
    (1/2) (1/2) 5 "1 hour" 0 []).2.2.2.1 (mkDoc "A", 1/122)
    (by norm_num +decide [search_hybrid, rrfFusion, fuseRows, withRanks,
      withRanksFrom, findRank, rowScore, rrfTerm, List.insertionSort,
      List.orderedInsert, scoreGe, vectorCandidates, textCandidates,
      sortByKeyAsc, sortByKeyDesc, candidateCap, mkDoc])

/-- C8: when the table is non-empty, all stored embeddings have length
768 and the query vector's length differs, `search_vector` fails with
the invalid-vector-dimension error and returns no result list. -/
theorem C8_vector_dimension_error (dist : Document → ℚ) (q : List ℚ)
    (table : List Document) (limit : Nat) (hne : table ≠ [])
    (hlen : ∀ d ∈ table, d.embedding.length = 768) (hq : q.length ≠ 768) :
    search_vector dist q table limit =
      Except.error SearchError.invalidVectorDimension := by
  rw [search_vector, if_neg]
  intro hall
  obtain ⟨d, hd⟩ := List.exists_mem_of_ne_nil table hne
  have h1 := List.all_eq_true.mp hall d hd
  have h2 : d.embedding.length = q.length := by simpa using h1
  rw [hlen d hd] at h2
  exact hq h2.symm

set_option maxRecDepth 8000 in
/-- C8 witness: a query vector of length 0 against one stored
768-dimensional embedding. -/
theorem C8_vector_dimension_error_witness :
    search_vector (fun _ => 0) [] [doc768] 5 =
      Except.error SearchError.invalidVectorDimension :=
  C8_vector_dimension_error (fun _ => 0) [] [doc768] 5 (by simp)
    (by
      intro d hd
      rw [List.mem_singleton.mp hd, doc768]
      simp)
    (by simp)

/-- C10: `get_document_by_id` returns `none` exactly when no document
carries the requested id, and, when ids are unique, returns the single
matching document; an unknown id yields `none`, never an error. -/
theorem C10_get_document_lookup (table : List Document) (docId : String) :
    (get_document_by_id table docId = none ↔ ∀ d ∈ table, d.id ≠ docId) ∧
      ∀ d, (table.map Document.id).Nodup → d ∈ table → d.id = docId →
        get_document_by_id table docId = some d := by
  constructor
  · rw [get_document_by_id, List.head?_eq_none_iff, List.filter_eq_nil_iff]
    simp
  · intro d hn hd hid
    induction table with
    | nil => cases hd
    | cons x xs ih =>
      rw [List.map_cons] at hn
      have hn2 := List.nodup_cons.mp hn
      by_cases hx : x.id = docId
      · rcases List.mem_cons.mp hd with rfl | hm
        · rw [get_document_by_id]
          rw [List.filter_cons_of_pos (by simpa using hx)]
          rfl
        · exfalso
          apply hn2.1
          have hmm : d.id ∈ List.map Document.id xs :=
            List.mem_map_of_mem Document.id hm
          rwa [hid, ← hx] at hmm
      · have hm : d ∈ xs := by
          rcases List.mem_cons.mp hd with rfl | hm
          · exact absurd hid hx
          · exact hm
        have htail := ih hn2.2 hm
        rw [get_document_by_id, List.filter_cons_of_neg (by simpa using hx)]
        rw [get_document_by_id] at htail
        exact htail

/-- C10 witness: lookup misses on an unknown id and hits on a present
one. -/
theorem C10_get_document_lookup_witness :
    get_document_by_id [mkDoc "A"] "Z" = none ∧
      get_document_by_id [mkDoc "A"] "A" = some (mkDoc "A") :=
  ⟨(C10_get_document_lookup [mkDoc "A"] "Z").1.mpr (by decide),
    (C10_get_document_lookup [mkDoc "A"] "A").2 (mkDoc "A") (by decide)
      (by decide) (by decide)⟩
